import Mathlib

/-!
Verification of the smoker actor of `src/semSharedMemSmoker.c` (cigarette
smokers problem, SVIPC shared memory + semaphores).

The shared-memory record `sh->fSt` is embedded as `FullState`; the three
operations `waitForIngredients`, `rollingCigarette` and `smoke` are embedded
both as pure state transformers (the effect of their critical sections on the
shared record) and as event traces (to reason about the semaphore
acquire/release ordering relative to the timed delays).
-/

/-- The per-smoker status values (constants of probConst.h, used by the
smoker at lines 161, 186, 224, 262 of the source). -/
inductive SmokerState where
  | WAITING_2ING
  | ROLLING
  | SMOKING
  | CLOSING_S
  deriving DecidableEq

/-- The shared record `FULL_STAT` as seen by the smoker: ingredient
inventory, per-smoker status, per-smoker cigarette counters and the closing
flag.  There are 3 smokers and 3 ingredient kinds. -/
structure FullState where
  ingredients : Fin 3 → Int
  smokerStat : Fin 3 → SmokerState
  nCigarettes : Fin 3 → Nat
  closing : Bool

/-- First critical section of `waitForIngredients` (source lines 154–168):
the smoker marks itself waiting for its two ingredients. -/
def waitEnter (s : FullState) (id : Fin 3) : FullState :=
  { s with smokerStat := Function.update s.smokerStat id .WAITING_2ING }

/-- Second critical section of `waitForIngredients`, entered after the wake-up
on `wait2Ings[id]` (source lines 177–202): if the factory is closing the
smoker records the terminal status and the call reports `false`; otherwise the
loop `for n in 0..2, if id ≠ n then ingredients[n] -= 1` consumes one unit of
each of the two complementary ingredients and the call reports `true`. -/
def waitWake (s : FullState) (id : Fin 3) : FullState × Bool :=
  if s.closing then
    ({ s with smokerStat := Function.update s.smokerStat id .CLOSING_S }, false)
  else
    ({ s with ingredients := fun n => if id ≠ n then s.ingredients n - 1 else s.ingredients n },
     true)

/-- Whole effect of `waitForIngredients` (source lines 150–203) on the shared
record, together with its boolean result. -/
def waitForIngredients (s : FullState) (id : Fin 3) : FullState × Bool :=
  waitWake (waitEnter s id) id

/-- Effect of `rollingCigarette` (source lines 213–243) on the shared record:
the only mutation is the status update to `ROLLING`. -/
def rollingCigarette (s : FullState) (id : Fin 3) : FullState :=
  { s with smokerStat := Function.update s.smokerStat id .ROLLING }

/-- Effect of `smoke` (source lines 253–281) on the shared record: status
update to `SMOKING`, then `nCigarettes[id] += 1`. -/
def smoke (s : FullState) (id : Fin 3) : FullState :=
  let s1 := { s with smokerStat := Function.update s.smokerStat id .SMOKING }
  { s1 with nCigarettes := Function.update s1.nCigarettes id (s1.nCigarettes id + 1) }

/-- A convenient all-zero initial shared record. -/
def zeroState : FullState :=
  { ingredients := fun _ => 0
    smokerStat := fun _ => .WAITING_2ING
    nCigarettes := fun _ => 0
    closing := false }

theorem waitForIngredients_ret (s : FullState) (id : Fin 3) :
    (waitForIngredients s id).2 = !s.closing := by
  unfold waitForIngredients waitWake waitEnter
  cases h : s.closing <;> simp [h]

/-- C1: when `waitForIngredients(id)` is woken with the closing flag false, it
decrements `ingredientCount[j]` by exactly one for each of the two kinds
`j ≠ id`, leaves `ingredientCount[id]` unchanged, and returns true. -/
theorem waitForIngredients_proceed_decrements
    (s : FullState) (id : Fin 3) (hcl : s.closing = false) :
    (waitForIngredients s id).2 = true
    ∧ (∀ n : Fin 3, (waitForIngredients s id).1.ingredients n
        = if n = id then s.ingredients n else s.ingredients n - 1) := by
  constructor
  · unfold waitForIngredients waitWake waitEnter
    simp [hcl]
  · intro n
    unfold waitForIngredients waitWake waitEnter
    by_cases h : id = n
    · simp [hcl, h]
    · have h2 : ¬ n = id := fun hh => h hh.symm
      simp [hcl, h, h2]

theorem waitForIngredients_proceed_decrements_witness :
    zeroState.closing = false
    ∧ (waitForIngredients zeroState 0).2 = true
    ∧ (waitForIngredients zeroState 0).1.ingredients 1 = zeroState.ingredients 1 - 1
    ∧ (waitForIngredients zeroState 0).1.ingredients 0 = zeroState.ingredients 0 := by
  have h := waitForIngredients_proceed_decrements zeroState 0 rfl
  refine ⟨rfl, h.1, ?_, ?_⟩
  · have := h.2 1
    simpa using this
  · have := h.2 0
    simpa using this

/-- C2: when `waitForIngredients(id)` is woken with the closing flag true, the
wake-phase critical section changes nothing but `smokerStat[id]`, which it
sets to `CLOSING_S`, and the call returns false; the final shared record of
the whole call likewise differs from the input only in that slot. -/
theorem waitForIngredients_closing_terminal
    (s : FullState) (id : Fin 3) (hcl : s.closing = true) :
    waitWake s id
      = ({ s with smokerStat := Function.update s.smokerStat id .CLOSING_S }, false)
    ∧ (waitForIngredients s id).1
      = { s with smokerStat := Function.update s.smokerStat id .CLOSING_S }
    ∧ (waitForIngredients s id).2 = false := by
  refine ⟨?_, ?_, ?_⟩
  · unfold waitWake
    simp [hcl]
  · unfold waitForIngredients waitWake waitEnter
    simp [hcl, Function.update_idem]
  · unfold waitForIngredients waitWake waitEnter
    simp [hcl]

theorem waitForIngredients_closing_terminal_witness :
    ({ zeroState with closing := true } : FullState).closing = true
    ∧ (waitForIngredients { zeroState with closing := true } 0).2 = false
    ∧ (waitForIngredients { zeroState with closing := true } 0).1.ingredients 1
        = zeroState.ingredients 1 := by
  have h := waitForIngredients_closing_terminal { zeroState with closing := true } 0 rfl
  refine ⟨rfl, h.2.2, ?_⟩
  rw [h.2.1]

/-- C9: the result of `waitForIngredients` depends only on the closing flag
observed after the wake-up, never on the ingredient counts; whenever closing
is false both decrements are performed unconditionally, even on counts that
are currently zero (the function never reads `ingredients`). -/
theorem waitForIngredients_ignores_ingredient_counts
    (s : FullState) (id : Fin 3) :
    (waitForIngredients s id).2 = !s.closing
    ∧ (∀ t : FullState, t.closing = s.closing →
        (waitForIngredients t id).2 = (waitForIngredients s id).2)
    ∧ (s.closing = false → ∀ n : Fin 3,
        (waitForIngredients s id).1.ingredients n
          = if id ≠ n then s.ingredients n - 1 else s.ingredients n) := by
  refine ⟨waitForIngredients_ret s id, ?_, ?_⟩
  · intro t ht
    rw [waitForIngredients_ret, waitForIngredients_ret, ht]
  · intro hcl n
    unfold waitForIngredients waitWake waitEnter
    simp [hcl]

theorem waitForIngredients_ignores_ingredient_counts_witness :
    zeroState.ingredients 1 = 0
    ∧ zeroState.closing = false
    ∧ (waitForIngredients zeroState 0).2 = true
    ∧ (waitForIngredients zeroState 0).1.ingredients 1 = -1 := by
  have h := waitForIngredients_ignores_ingredient_counts zeroState 0
  refine ⟨rfl, rfl, by simpa using h.1, ?_⟩
  have := h.2.2 rfl 1
  simpa using this

/-!
Event traces.  Each operation is also embedded as the sequence of observable
actions it performs, in source order, so that the position of the timed
delays relative to mutex acquisition/release can be stated.
-/

/-- Observable actions of the smoker, in the order the source performs them. -/
inductive Event where
  | acquireMutex
  | releaseMutex
  | saveSnap
  | semWaitIng (id : Fin 3)
  | semSignalCig
  | setStat (id : Fin 3) (st : SmokerState)
  | decIng (n : Fin 3)
  | sleep
  | incrCig (id : Fin 3)
  deriving DecidableEq, BEq

/-- The conditional timed delay `if (t > 0.0) usleep(t)` of the source
(lines 228 and 267). -/
def sleepEvents (t : ℚ) : List Event :=
  if 0 < t then [.sleep] else []

/-- Trace of `rollingCigarette` (source lines 213–243): enter the critical
region, set status `ROLLING`, save, perform the timed delay, leave the
critical region, signal `waitCigarette`.  `t` is the drawn
`rollingTime = 100 + normalRand(30)`. -/
def rollingTrace (t : ℚ) (id : Fin 3) : List Event :=
  [.acquireMutex, .setStat id .ROLLING, .saveSnap]
    ++ sleepEvents t
    ++ [.releaseMutex, .semSignalCig]

/-- Trace of `smoke` (source lines 253–281): enter the critical region, set
status `SMOKING`, save, perform the timed delay, increment the cigarette
counter, save, leave the critical region. -/
def smokeTrace (t : ℚ) (id : Fin 3) : List Event :=
  [.acquireMutex, .setStat id .SMOKING, .saveSnap]
    ++ sleepEvents t
    ++ [.incrCig id, .saveSnap, .releaseMutex]

/-- Trace of `waitForIngredients` (source lines 150–203), given the closing
value observed in the second critical section. -/
def waitTrace (closing : Bool) (id : Fin 3) : List Event :=
  [.acquireMutex, .setStat id .WAITING_2ING, .saveSnap, .releaseMutex,
   .semWaitIng id, .acquireMutex]
    ++ (if closing then [.setStat id .CLOSING_S]
        else ((List.finRange 3).filter (fun n => id ≠ n)).map .decIng)
    ++ [.saveSnap, .releaseMutex]

/-- Trace of one full roll-and-smoke cycle. -/
def cycleTrace (t1 t2 : ℚ) (id : Fin 3) : List Event :=
  rollingTrace t1 id ++ smokeTrace t2 id

/-- `sleepHeldAux d tr` is true when some `sleep` in `tr` happens while the
mutex-acquisition depth (starting at `d`) is positive. -/
def sleepHeldAux : Nat → List Event → Bool
  | _, [] => false
  | d, .acquireMutex :: rest => sleepHeldAux (d + 1) rest
  | d, .releaseMutex :: rest => sleepHeldAux (d - 1) rest
  | d, .sleep :: rest => decide (0 < d) || sleepHeldAux d rest
  | d, _ :: rest => sleepHeldAux d rest

/-- Some timed delay of the trace is performed while the mutex is held. -/
def sleepsWhileHeld (tr : List Event) : Bool :=
  sleepHeldAux 0 tr

/-- glibc `RAND_MAX`. -/
def RAND_MAX : Nat := 2147483647

/-- `normalRand` (source lines 124–135): sum twelve draws of
`random()/(RAND_MAX+1.0)`, subtract 6, scale by `stddev`.  The twelve raw
`random()` outputs are the argument `draws`. -/
def normalRand (draws : Fin 12 → Nat) (stddev : ℚ) : ℚ :=
  (((List.finRange 12).foldl
      (fun r i => r + (draws i : ℚ) / ((RAND_MAX : ℚ) + 1)) 0) - 6) * stddev

theorem foldl_add_eq_sum (l : List (Fin 12)) (f : Fin 12 → ℚ) (a : ℚ) :
    l.foldl (fun r i => r + f i) a = a + (l.map f).sum := by
  induction l generalizing a with
  | nil => simp
  | cons x xs ih => simp [ih, add_assoc]

/-- C8: for every sequence of raw draws, `normalRand` returns the sum of the
twelve uniform samples `draw/(RAND_MAX+1)` minus 6, multiplied by `stddev`;
in particular with standard deviation 0 it returns exactly 0. -/
theorem normalRand_formula (draws : Fin 12 → Nat) (stddev : ℚ) :
    normalRand draws stddev
      = ((∑ i : Fin 12, (draws i : ℚ) / ((RAND_MAX : ℚ) + 1)) - 6) * stddev
    ∧ normalRand draws 0 = 0 := by
  constructor
  · unfold normalRand
    rw [foldl_add_eq_sum, Fin.sum_univ_def]
    ring
  · unfold normalRand
    ring

/-- C3 fails on the code: at the concretely reachable rolling time 100 (the
drawn noise is 0 when all twelve draws are `(RAND_MAX+1)/2`), the trace of
`rollingCigarette` performs its timed delay while the mutex is held — the
`usleep` at source line 228 sits between the `semDown` (line 217) and the
`semUp` (line 231) on `mutex`. -/
theorem rollingCigarette_sleep_holds_mutex_cex :
    (100 : ℚ) + normalRand (fun _ => 1073741824) 30 = 100
    ∧ sleepsWhileHeld (rollingTrace 100 0) = true := by
  constructor
  · norm_num [normalRand, List.finRange, List.range, List.range.loop, RAND_MAX]
  · norm_num [sleepsWhileHeld, rollingTrace, sleepEvents, sleepHeldAux]

/-- C3 amended: whenever the drawn rolling time is positive (so the delay is
performed at all), `rollingCigarette` performs the timed delay while holding
the mutex, inside the critical section and before the release. -/
theorem rollingCigarette_sleep_inside_mutex (t : ℚ) (id : Fin 3) (h : 0 < t) :
    sleepsWhileHeld (rollingTrace t id) = true := by
  simp [sleepsWhileHeld, rollingTrace, sleepEvents, if_pos h, sleepHeldAux]

theorem rollingCigarette_sleep_inside_mutex_witness :
    (0 : ℚ) < 100 ∧ sleepsWhileHeld (rollingTrace 100 1) = true :=
  ⟨by norm_num, rollingCigarette_sleep_inside_mutex 100 1 (by norm_num)⟩

/-- C4: one roll-and-smoke cycle increments `nCigarettes[id]` by exactly one
and touches no other smoker's counter (so each counter is non-decreasing and
grows by 1 per completed cycle), and in the cycle's trace the increment event
occurs only after the `ROLLING` and `SMOKING` status transitions of that
smoker. -/
theorem smoke_increments_once_after_rolling_smoking
    (t1 t2 : ℚ) (s : FullState) (id j : Fin 3) :
    ((smoke (rollingCigarette s id) id).nCigarettes j
      = if j = id then s.nCigarettes j + 1 else s.nCigarettes j)
    ∧ s.nCigarettes j ≤ (smoke (rollingCigarette s id) id).nCigarettes j
    ∧ (cycleTrace t1 t2 id).indexOf (.setStat id .ROLLING)
        < (cycleTrace t1 t2 id).indexOf (.incrCig id)
    ∧ (cycleTrace t1 t2 id).indexOf (.setStat id .SMOKING)
        < (cycleTrace t1 t2 id).indexOf (.incrCig id) := by
  have hup : (smoke (rollingCigarette s id) id).nCigarettes j
      = if j = id then s.nCigarettes j + 1 else s.nCigarettes j := by
    unfold smoke rollingCigarette
    by_cases h : j = id
    · subst h
      simp [Function.update_apply]
    · simp [Function.update_apply, h]
  refine ⟨hup, ?_, ?_, ?_⟩
  · rw [hup]
    by_cases h : j = id <;> simp [h]
  · by_cases h1 : (0 : ℚ) < t1 <;> by_cases h2 : (0 : ℚ) < t2 <;>
      fin_cases id <;>
      simp [cycleTrace, rollingTrace, smokeTrace, sleepEvents, h1, h2] <;> decide
  · by_cases h1 : (0 : ℚ) < t1 <;> by_cases h2 : (0 : ℚ) < t2 <;>
      fin_cases id <;>
      simp [cycleTrace, rollingTrace, smokeTrace, sleepEvents, h1, h2] <;> decide

/-- C10: `rollingCigarette` and `smoke` never read the closing flag (their
effect commutes with any write of that flag) and never change it; hence a
closing flag set after `waitForIngredients` returned true leaves the whole
cycle unaffected — the cigarette counter is still incremented — and the flag
is first observed at the next `waitForIngredients`, which then returns
false. -/
theorem cycle_ignores_closing (s : FullState) (id : Fin 3) (b : Bool) :
    rollingCigarette { s with closing := b } id
      = { rollingCigarette s id with closing := b }
    ∧ smoke { s with closing := b } id = { smoke s id with closing := b }
    ∧ (rollingCigarette s id).closing = s.closing
    ∧ (smoke s id).closing = s.closing
    ∧ (smoke (rollingCigarette { s with closing := b } id) id).nCigarettes id
        = s.nCigarettes id + 1
    ∧ (waitForIngredients (smoke (rollingCigarette { s with closing := b } id) id) id).2
        = !b := by
  refine ⟨rfl, rfl, rfl, rfl, ?_, ?_⟩
  · unfold smoke rollingCigarette
    simp [Function.update_apply]
  · rw [waitForIngredients_ret]
    rfl

/-!
The main harness (source lines 54–115): command-line validation and the
life-cycle loop `while (waitForIngredients(n)) { rollingCigarette(n);
smoke(n); }`, returning `EXIT_SUCCESS` after the loop.
-/

def EXIT_SUCCESS : Nat := 0

/-- The life-cycle loop of `main` (source lines 102–106, 114).  `script`
holds the closing value that the external shutdown authority has written at
each wake-up; the loop is still running when the script is exhausted
(`none`), and terminates with the process exit code otherwise. -/
def smokerLife (id : Fin 3) (script : List Bool) (s : FullState) :
    Option (FullState × Nat) :=
  match script with
  | [] => none
  | b :: rest =>
    let r := waitForIngredients { s with closing := b } id
    if r.2 then smokerLife id rest (smoke (rollingCigarette r.1 id) id)
    else some (r.1, EXIT_SUCCESS)

/-- C5: the main loop exits only when a wake-up observes the closing flag,
in which case the process terminates with the success status; while every
observation is false the loop keeps running, each iteration executing
`rollingCigarette` then `smoke` on the state left by `waitForIngredients`. -/
theorem main_loop_exit_only_on_closing (id : Fin 3) (script : List Bool) (s : FullState) :
    (∀ s' c, smokerLife id script s = some (s', c) →
        c = EXIT_SUCCESS ∧ true ∈ script ∧ s'.closing = true)
    ∧ ((∀ b ∈ script, b = false) → smokerLife id script s = none)
    ∧ (∀ rest : List Bool, smokerLife id (false :: rest) s
        = smokerLife id rest
            (smoke (rollingCigarette (waitForIngredients { s with closing := false } id).1 id)
              id)) := by
  have hstep : ∀ (rest : List Bool) (s : FullState), smokerLife id (false :: rest) s
      = smokerLife id rest
          (smoke (rollingCigarette (waitForIngredients { s with closing := false } id).1 id)
            id) := by
    intro rest s
    simp [smokerLife, waitForIngredients_ret]
  refine ⟨?_, ?_, fun rest => hstep rest s⟩
  · induction script generalizing s with
    | nil =>
      intro s' c h
      simp [smokerLife] at h
    | cons b rest ih =>
      intro s' c h
      cases b with
      | false =>
        rw [hstep] at h
        have hr := ih _ s' c h
        exact ⟨hr.1, by simp [hr.2.1], hr.2.2⟩
      | true =>
        have hsome : smokerLife id (true :: rest) s
            = some ((waitForIngredients { s with closing := true } id).1, EXIT_SUCCESS) := by
          simp [smokerLife, waitForIngredients_ret]
        rw [hsome] at h
        injection h with h1
        injection h1 with ha hb
        subst ha
        subst hb
        exact ⟨rfl, by simp, rfl⟩
  · induction script generalizing s with
    | nil =>
      intro _
      rfl
    | cons b rest ih =>
      intro hall
      have hb : b = false := hall b (by simp)
      subst hb
      rw [hstep]
      exact ih _ (fun x hx => hall x (by simp [hx]))

theorem main_loop_witness :
    smokerLife 0 [false, false] zeroState = none
    ∧ true ∈ [true]
    ∧ EXIT_SUCCESS = 0 := by
  have hnone := (main_loop_exit_only_on_closing 0 [false, false] zeroState).2.1 (by decide)
  have hsome : smokerLife 0 [true] zeroState
      = some ((waitForIngredients { zeroState with closing := true } 0).1, EXIT_SUCCESS) := by
    simp [smokerLife, waitForIngredients_ret]
  have hr := (main_loop_exit_only_on_closing 0 [true] zeroState).1 _ _ hsome
  exact ⟨hnone, hr.2.1, rfl⟩

/-!
Command-line validation of the smoker id (source lines 71–75).
-/

/-- Number of smokers (`NUMSMOKERS` of probConst.h). -/
def NUMSMOKERS : Int := 3

/-- The value of `n` after `n = (unsigned int) strtol (argv[1], &tinp, 0)`
at source line 71: the long is truncated to a 32-bit unsigned value, which
is then stored into the signed 32-bit `int n` with two's-complement
wrap-around. -/
def storedId (v : Int) : Int :=
  let u := v % 4294967296
  if u < 2147483648 then u else u - 4294967296

/-- The range check of source line 72: a (well-formed) id is rejected iff
`n >= NUMSMOKERS`.  There is no lower-bound check. -/
def idRejected (v : Int) : Bool := decide (NUMSMOKERS ≤ storedId v)

/-- C7 fails on the code: the id `-1` survives the cast round-trip as `-1`
and the check `n >= NUMSMOKERS` does not reject it, so a negative smoker id
proceeds to the IPC connection phase (and is later used as an array index);
the upper bound and the in-range ids behave as the spec says. -/
theorem idCheck_accepts_negative :
    storedId (-1) = -1
    ∧ (-1 : Int) < 0
    ∧ idRejected (-1) = false
    ∧ idRejected 3 = true
    ∧ idRejected 0 = false
    ∧ idRejected 2 = false := by
  decide

/-!
Whole-simulation transition system for the reachable-state invariant.  The
smoker's steps are the embedded critical sections above; the agent/watcher
process is not part of `src/` and is modelled from the spec.
-/

/-- A global configuration: the shared record plus the counter of each
`wait2Ings[id]` semaphore (pending wake-up signals). -/
structure Sys where
  shared : FullState
  pending : Fin 3 → Nat

/-- Initial configuration: empty inventory, no pending signals, not closing. -/
def initSys : Sys := { shared := zeroState, pending := fun _ => 0 }

/-- One interleaved step of the simulation.  `enter`, `wake`, `roll` and
`smokeStep` are the smoker's critical sections embedded from the source.
`supply`, `close` and `shutdownSignal` are modelled from the spec: the
agent writes one unit of each ingredient kind other than `id` and then
signals `wait2Ings[id]`; the shutdown authority sets the closing flag
(never unsetting it) and may signal a smoker only after closing is set. -/
inductive Step : Sys → Sys → Prop where
  | supply (σ : Sys) (id : Fin 3) :
      Step σ { shared := { σ.shared with
                 ingredients := fun n => if id ≠ n then σ.shared.ingredients n + 1
                                         else σ.shared.ingredients n },
               pending := Function.update σ.pending id (σ.pending id + 1) }
  | close (σ : Sys) :
      Step σ { shared := { σ.shared with closing := true }, pending := σ.pending }
  | shutdownSignal (σ : Sys) (id : Fin 3) (hcl : σ.shared.closing = true) :
      Step σ { shared := σ.shared,
               pending := Function.update σ.pending id (σ.pending id + 1) }
  | enter (σ : Sys) (id : Fin 3) :
      Step σ { shared := waitEnter σ.shared id, pending := σ.pending }
  | wake (σ : Sys) (id : Fin 3) (hp : 0 < σ.pending id) :
      Step σ { shared := (waitWake σ.shared id).1,
               pending := Function.update σ.pending id (σ.pending id - 1) }
  | roll (σ : Sys) (id : Fin 3) :
      Step σ { shared := rollingCigarette σ.shared id, pending := σ.pending }
  | smokeStep (σ : Sys) (id : Fin 3) :
      Step σ { shared := smoke σ.shared id, pending := σ.pending }

/-- Configurations reachable from the initial one. -/
def Reachable (σ : Sys) : Prop := Relation.ReflTransGen Step initSys σ

/-- Inductive invariant: ingredient counts are non-negative and, while the
simulation is not closing, each count covers every pending signal of the
other two smokers. -/
def SysInv (σ : Sys) : Prop :=
  (∀ k, 0 ≤ σ.shared.ingredients k)
  ∧ (σ.shared.closing = false →
      ((σ.pending 1 : Int) + σ.pending 2 ≤ σ.shared.ingredients 0
      ∧ (σ.pending 0 : Int) + σ.pending 2 ≤ σ.shared.ingredients 1
      ∧ (σ.pending 0 : Int) + σ.pending 1 ≤ σ.shared.ingredients 2))

theorem sysInv_init : SysInv initSys := by
  constructor
  · intro k
    simp [initSys, zeroState]
  · intro _
    simp [initSys, zeroState]

theorem sysInv_step {σ σ' : Sys} (h : SysInv σ) (st : Step σ σ') : SysInv σ' := by
  obtain ⟨h1, h2⟩ := h
  cases st with
  | supply id =>
    constructor
    · intro k
      have := h1 k
      dsimp only
      by_cases hk : id ≠ k <;> simp [hk] <;> omega
    · intro hcl
      have hcl0 : σ.shared.closing = false := hcl
      obtain ⟨g0, g1, g2⟩ := h2 hcl0
      have e0 := h1 0
      fin_cases id <;>
        simp [Function.update_apply, show ((0:Fin 3) ≠ 1) from by decide] <;>
        refine ⟨?_, ?_, ?_⟩ <;> omega
  | close =>
    refine ⟨h1, ?_⟩
    intro hcl
    simp at hcl
  | shutdownSignal id hcl =>
    refine ⟨h1, ?_⟩
    intro hcl2
    rw [hcl] at hcl2
    exact absurd hcl2 (by simp)
  | enter id =>
    exact ⟨h1, h2⟩
  | wake id hp =>
    cases hc : σ.shared.closing with
    | true =>
      constructor
      · intro k
        simp [waitWake, hc]
        exact h1 k
      · intro hcl2
        simp [waitWake, hc] at hcl2
    | false =>
      obtain ⟨g0, g1, g2⟩ := h2 hc
      constructor
      · intro k
        simp [waitWake, hc]
        fin_cases id <;> fin_cases k <;> simp_all <;> omega
      · intro _
        simp [waitWake, hc, Function.update_apply]
        fin_cases id <;> simp_all <;> omega
  | roll id =>
    exact ⟨h1, h2⟩
  | smokeStep id =>
    exact ⟨h1, h2⟩

/-- C6: in every reachable state of the simulation, every ingredient count
is non-negative: the smokers' unconditional decrements never drive a count
below zero, because the agent has supplied the matching units before each
wake-up signal. -/
theorem ingredients_nonneg_reachable (σ : Sys) (h : Reachable σ) (k : Fin 3) :
    0 ≤ σ.shared.ingredients k := by
  have hinv : SysInv σ := by
    induction h with
    | refl => exact sysInv_init
    | tail _ st ih => exact sysInv_step ih st
  exact hinv.1 k

theorem ingredients_nonneg_reachable_witness :
    0 ≤ initSys.shared.ingredients 0 :=
  ingredients_nonneg_reachable initSys Relation.ReflTransGen.refl 0
